import Mathlib

/-!
# Verification of the peer-to-peer collaboration core

Shallow embedding of the signaling-assisted WebRTC mesh and chunked
file-transfer engine found in `src/pages/WordCounter.tsx` (the Share
component) and `src/pages/Whiteboard.tsx`.  Bytes are modelled as natural
numbers below 256, binary strings and base64 text as lists of character
codes, and the event-driven handlers as pure state-transition functions.
-/

namespace P2P

/-! ## Base64 (`btoa` / `atob`)

The sender turns each raw chunk into a binary string with
`String.fromCharCode` and calls `btoa`; the receiver calls `atob` and
rebuilds a `Uint8Array` via `charCodeAt`.  Both strings are modelled as
lists of character codes (`List Nat`). -/

/-- Character codes of the base64 alphabet `A-Z a-z 0-9 + /`, in order. -/
def b64codes : List Nat :=
  [65, 66, 67, 68, 69, 70, 71, 72, 73, 74, 75, 76, 77, 78, 79, 80, 81, 82,
   83, 84, 85, 86, 87, 88, 89, 90,
   97, 98, 99, 100, 101, 102, 103, 104, 105, 106, 107, 108, 109, 110, 111,
   112, 113, 114, 115, 116, 117, 118, 119, 120, 121, 122,
   48, 49, 50, 51, 52, 53, 54, 55, 56, 57, 43, 47]

/-- Character code of the padding character `=`. -/
def padCode : Nat := 61

/-- The base64 character encoding a six-bit value. -/
def charOfSextet (n : Nat) : Nat := b64codes.getD n 0

/-- The six-bit value of a base64 character (its index in the alphabet). -/
def sextetOfChar (c : Nat) : Nat := b64codes.indexOf c

/-- Model of `btoa`: groups of three bytes become four alphabet
characters; a trailing group of two or one bytes is padded with `=`. -/
def btoaModel : List Nat → List Nat
  | a :: b :: c :: rest =>
      charOfSextet (a / 4) :: charOfSextet (a % 4 * 16 + b / 16) ::
      charOfSextet (b % 16 * 4 + c / 64) :: charOfSextet (c % 64) ::
      btoaModel rest
  | [a, b] => [charOfSextet (a / 4), charOfSextet (a % 4 * 16 + b / 16),
               charOfSextet (b % 16 * 4), padCode]
  | [a] => [charOfSextet (a / 4), charOfSextet (a % 4 * 16), padCode, padCode]
  | [] => []

/-- The pure sextet stream of the base64 encoding (no padding characters). -/
def encSextets : List Nat → List Nat
  | a :: b :: c :: rest =>
      (a / 4) :: (a % 4 * 16 + b / 16) :: (b % 16 * 4 + c / 64) ::
      (c % 64) :: encSextets rest
  | [a, b] => [a / 4, a % 4 * 16 + b / 16, b % 16 * 4]
  | [a] => [a / 4, a % 4 * 16]
  | [] => []

/-- Rebuild bytes from a stream of six-bit values: four sextets give three
bytes, a trailing group of three gives two and of two gives one. -/
def decodeSextets : List Nat → List Nat
  | w :: x :: y :: z :: rest =>
      (w * 4 + x / 16) :: (x % 16 * 16 + y / 4) :: (y % 4 * 64 + z) ::
      decodeSextets rest
  | [w, x, y] => [w * 4 + x / 16, x % 16 * 16 + y / 4]
  | [w, x] => [w * 4 + x / 16]
  | [_] => []
  | [] => []

/-- Model of `atob`: drop the padding and decode the sextet stream. -/
def atobModel (s : List Nat) : List Nat :=
  decodeSextets ((s.filter (· ≠ padCode)).map sextetOfChar)

theorem sextet_char_id : ∀ n < 64, sextetOfChar (charOfSextet n) = n := by
  decide

theorem char_ne_pad : ∀ n < 64, charOfSextet n ≠ 61 := by
  decide

theorem filter_map_btoaModel (l : List Nat) (hb : ∀ b ∈ l, b < 256) :
    ((btoaModel l).filter (· ≠ padCode)).map sextetOfChar = encSextets l := by
  induction l using btoaModel.induct with
  | case1 a b c rest ih =>
      have ha : a < 256 := hb a (by simp)
      have hbb : b < 256 := hb b (by simp)
      have hc : c < 256 := hb c (by simp)
      have h1 : a / 4 < 64 := by omega
      have h2 : a % 4 * 16 + b / 16 < 64 := by omega
      have h3 : b % 16 * 4 + c / 64 < 64 := by omega
      have h4 : c % 64 < 64 := by omega
      simp [btoaModel, encSextets, List.filter_cons, padCode,
        char_ne_pad _ h1, char_ne_pad _ h2, char_ne_pad _ h3,
        char_ne_pad _ h4, sextet_char_id _ h1, sextet_char_id _ h2,
        sextet_char_id _ h3, sextet_char_id _ h4]
      simpa [padCode] using ih fun x hx => hb x (by simp [hx])
  | case2 a b =>
      have ha : a < 256 := hb a (by simp)
      have hbb : b < 256 := hb b (by simp)
      have h1 : a / 4 < 64 := by omega
      have h2 : a % 4 * 16 + b / 16 < 64 := by omega
      have h3 : b % 16 * 4 < 64 := by omega
      simp [btoaModel, encSextets, List.filter_cons, padCode,
        char_ne_pad _ h1, char_ne_pad _ h2, char_ne_pad _ h3,
        sextet_char_id _ h1, sextet_char_id _ h2, sextet_char_id _ h3]
  | case3 a =>
      have ha : a < 256 := hb a (by simp)
      have h1 : a / 4 < 64 := by omega
      have h2 : a % 4 * 16 < 64 := by omega
      simp [btoaModel, encSextets, List.filter_cons, padCode,
        char_ne_pad _ h1, char_ne_pad _ h2,
        sextet_char_id _ h1, sextet_char_id _ h2]
  | case4 => rfl

theorem decodeSextets_encSextets (l : List Nat) (hb : ∀ b ∈ l, b < 256) :
    decodeSextets (encSextets l) = l := by
  induction l using btoaModel.induct with
  | case1 a b c rest ih =>
      have ha : a < 256 := hb a (by simp)
      have hbb : b < 256 := hb b (by simp)
      have hc : c < 256 := hb c (by simp)
      simp only [encSextets, decodeSextets, List.cons.injEq]
      refine ⟨by omega, by omega, by omega,
        ih fun x hx => hb x (by simp [hx])⟩
  | case2 a b =>
      have ha : a < 256 := hb a (by simp)
      have hbb : b < 256 := hb b (by simp)
      simp only [encSextets, decodeSextets, List.cons.injEq]
      exact ⟨by omega, by omega, trivial⟩
  | case3 a =>
      have ha : a < 256 := hb a (by simp)
      simp only [encSextets, decodeSextets, List.cons.injEq]
      exact ⟨by omega, trivial⟩
  | case4 => rfl

/-- `atob` undoes `btoa` byte for byte. -/
theorem atob_btoa (l : List Nat) (hb : ∀ b ∈ l, b < 256) :
    atobModel (btoaModel l) = l := by
  rw [atobModel, filter_map_btoaModel l hb, decodeSextets_encSextets l hb]

/-! ## Sender-side chunking (`sendFileChunks`) -/

/-- `const FILE_CHUNK_SIZE = 128 * 1024`. -/
def FILE_CHUNK_SIZE : Nat := 128 * 1024

/-- `Math.ceil(fileSize / FILE_CHUNK_SIZE)`, the sender's `totalChunks`. -/
def totalChunksOf (fileSize C : Nat) : Nat := (fileSize + C - 1) / C

/-- `file.slice(i * C, Math.min(i * C + C, file.size))`: the raw byte
slice the sender reads for chunk `i`. -/
def sliceChunk (file : List Nat) (i C : Nat) : List Nat :=
  (file.drop (i * C)).take C

/-- One `file-chunk` message as built in the send loop: the base64
payload, the zero-based index, and the `isLast` flag. -/
structure ChunkMsg where
  chunk : List Nat
  index : Nat
  isLast : Bool
  deriving Repr, DecidableEq

/-- The sequence of `file-chunk` messages the send loop emits for a file:
for `i` in `[0, totalChunks)`, slice, base64-encode, and flag the final
index with `isLast`. -/
def sentChunkMsgs (file : List Nat) (C : Nat) : List ChunkMsg :=
  let n := totalChunksOf file.length C
  (List.range n).map fun i =>
    ⟨btoaModel (sliceChunk file i C), i, decide (i = n - 1)⟩

theorem totalChunks_eq_zero {N C : Nat} (hC : 0 < C) :
    totalChunksOf N C = 0 ↔ N = 0 := by
  unfold totalChunksOf
  rw [Nat.div_eq_zero_iff hC]
  omega

theorem totalChunks_succ {N C n : Nat} (hC : 0 < C)
    (h : totalChunksOf N C = n + 1) : totalChunksOf (N - C) C = n := by
  unfold totalChunksOf at *
  rcases Nat.lt_or_ge C N with hgt | hle
  · -- `N > C`: removing one chunk's worth drops the count by one
    have hsplit : N + C - 1 = (N - C + C - 1) + C := by omega
    rw [hsplit, Nat.add_div_right _ hC] at h
    omega
  · -- one chunk: `N ≤ C`, so `N - C = 0` and `n = 0`
    have hN : 0 < N := by
      by_contra h0
      have hN0 : N = 0 := by omega
      rw [hN0, Nat.div_eq_of_lt (by omega)] at h
      omega
    have h1 : (N + C - 1) / C = 1 :=
      Nat.div_eq_of_lt_le (by omega) (by omega)
    have hNC : N - C = 0 := by omega
    rw [hNC, Nat.div_eq_of_lt (by omega)]
    omega

/-- Concatenating the sender's raw slices in index order rebuilds the
file byte-for-byte. -/
theorem join_slices (C : Nat) (hC : 0 < C) :
    ∀ (n : Nat) (l : List Nat), n = totalChunksOf l.length C →
      (((List.range n).map fun i => sliceChunk l i C)).flatten = l := by
  intro n
  induction n with
  | zero =>
      intro l hl
      have h0 : l.length = 0 := (totalChunks_eq_zero hC).mp hl.symm
      have hnil : l = [] := List.eq_nil_of_length_eq_zero h0
      simp [hnil]
  | succ k ih =>
      intro l hl
      rw [List.range_succ_eq_map]
      simp only [List.map_cons, List.map_map, List.flatten_cons]
      have hcomp : ((fun i => sliceChunk l i C) ∘ Nat.succ) =
          fun i => sliceChunk (l.drop C) i C := by
        funext i
        have hsm : Nat.succ i * C = i * C + C := Nat.succ_mul i C
        show (l.drop (Nat.succ i * C)).take C = ((l.drop C).drop (i * C)).take C
        rw [hsm, List.drop_drop, Nat.add_comm C (i * C)]
      rw [hcomp, ih (l.drop C) (by
        rw [List.length_drop]
        exact (totalChunks_succ hC hl.symm).symm)]
      simp [sliceChunk]

/-- The raw slice for chunk `i` holds `min C (N - i*C)` bytes. -/
theorem sliceChunk_length (file : List Nat) (i C : Nat) :
    (sliceChunk file i C).length = min C (file.length - i * C) := by
  simp [sliceChunk]

theorem sliceChunk_subset (file : List Nat) (i C : Nat) :
    sliceChunk file i C ⊆ file :=
  fun _ h => List.drop_subset _ file (List.take_subset _ _ h)

/-- C1.  Chunk round-trip: the sender emits `ceil(N/C)` base64-encoded
slices; decoding each payload with `atob` gives back exactly the sender's
raw slice (same bytes, same length), and concatenating the decoded
payloads in index order reproduces the file. -/
theorem chunk_roundtrip (file : List Nat) (C : Nat) (hC : 0 < C)
    (hb : ∀ b ∈ file, b < 256) :
    (sentChunkMsgs file C).length = totalChunksOf file.length C ∧
    (∀ m ∈ sentChunkMsgs file C,
      atobModel m.chunk = sliceChunk file m.index C ∧
      (atobModel m.chunk).length = (sliceChunk file m.index C).length) ∧
    ((sentChunkMsgs file C).map fun m => atobModel m.chunk).flatten
      = file := by
  refine ⟨by simp [sentChunkMsgs], ?_, ?_⟩
  · intro m hm
    simp only [sentChunkMsgs, List.mem_map, List.mem_range] at hm
    obtain ⟨i, _, rfl⟩ := hm
    have hdec : atobModel (btoaModel (sliceChunk file i C)) = sliceChunk file i C :=
      atob_btoa _ fun b h => hb b (sliceChunk_subset file i C h)
    exact ⟨hdec, by rw [hdec]⟩
  · have hmap : ((sentChunkMsgs file C).map fun m => atobModel m.chunk) =
        (List.range (totalChunksOf file.length C)).map
          fun i => sliceChunk file i C := by
      simp only [sentChunkMsgs, List.map_map]
      refine List.map_congr_left fun i hi => ?_
      exact atob_btoa _ fun b h => hb b (sliceChunk_subset file i C h)
    rw [hmap, join_slices C hC _ file rfl]

/-- A closed instance of `chunk_roundtrip`. -/
theorem chunk_roundtrip_witness :
    0 < 2 ∧ (∀ b ∈ [10, 200, 33, 7, 255], b < 256) ∧
    (((sentChunkMsgs [10, 200, 33, 7, 255] 2).map
        fun m => atobModel m.chunk).flatten = [10, 200, 33, 7, 255]) :=
  ⟨by decide, by decide,
    (chunk_roundtrip [10, 200, 33, 7, 255] 2 (by decide) (by decide)).2.2⟩

/-- C4.  Chunking arithmetic: every transfer's send loop runs for exactly
`ceil(fileSize / FILE_CHUNK_SIZE)` iterations, the emitted indices are
`0, 1, …, n-1` in order, `isLast` holds exactly on the final index, and a
307200-byte file with the 128 KB chunk size yields three chunks of
131072, 131072 and 45056 raw bytes with `isLast` only on the third. -/
theorem chunking_arithmetic (file : List Nat) :
    (sentChunkMsgs file FILE_CHUNK_SIZE).length
      = totalChunksOf file.length FILE_CHUNK_SIZE ∧
    ((sentChunkMsgs file FILE_CHUNK_SIZE).map fun m => m.index)
      = List.range (totalChunksOf file.length FILE_CHUNK_SIZE) ∧
    (∀ m ∈ sentChunkMsgs file FILE_CHUNK_SIZE,
      (m.isLast = true ↔
        m.index = totalChunksOf file.length FILE_CHUNK_SIZE - 1)) ∧
    (file.length = 307200 →
      (sentChunkMsgs file FILE_CHUNK_SIZE).length = 3 ∧
      ((sentChunkMsgs file FILE_CHUNK_SIZE).map
          fun m => (sliceChunk file m.index FILE_CHUNK_SIZE).length)
        = [131072, 131072, 45056] ∧
      ((sentChunkMsgs file FILE_CHUNK_SIZE).map fun m => m.isLast)
        = [false, false, true]) := by
  refine ⟨by simp [sentChunkMsgs], ?_, ?_, ?_⟩
  · simp only [sentChunkMsgs, List.map_map]
    have hfun : ((fun m => ChunkMsg.index m) ∘ fun i =>
        (⟨btoaModel (sliceChunk file i FILE_CHUNK_SIZE), i,
          decide (i = totalChunksOf file.length FILE_CHUNK_SIZE - 1)⟩ :
          ChunkMsg)) = fun i => i := rfl
    rw [hfun, List.map_id']
  · intro m hm
    simp only [sentChunkMsgs, List.mem_map, List.mem_range] at hm
    obtain ⟨i, _, rfl⟩ := hm
    simp
  · intro h307
    have hn : totalChunksOf file.length FILE_CHUNK_SIZE = 3 := by
      rw [h307]; rfl
    have hr3 : List.range 3 = [0, 1, 2] := rfl
    refine ⟨by simp [sentChunkMsgs, hn], ?_, ?_⟩
    · simp only [sentChunkMsgs, hn, hr3, List.map_cons, List.map_nil]
      simp only [sliceChunk_length, h307]
      norm_num [FILE_CHUNK_SIZE]
    · simp only [sentChunkMsgs, hn, hr3, List.map_cons, List.map_nil]
      simp

/-- A closed instance of `chunking_arithmetic` at a 307200-byte file. -/
theorem chunking_arithmetic_witness :
    (List.replicate 307200 0).length = 307200 ∧
    ((sentChunkMsgs (List.replicate 307200 0) FILE_CHUNK_SIZE).map
        fun m => m.isLast) = [false, false, true] :=
  ⟨List.length_replicate 307200 0,
    ((chunking_arithmetic (List.replicate 307200 0)).2.2.2
      (List.length_replicate 307200 0)).2.2⟩

/-! ## Receiver-side transfer state

One transfer key (`peerId_fileId`) of the Share component's receiver.
`progress` mirrors `receiveProgress[transferKey]`, `buf` mirrors
`fileChunksRef.current[transferKey]`.  The handlers are the `file-info` /
`file-chunk` branches of `handlePeerData`, `acceptFile` and `declineFile`;
`peerDisconnect` is `handlePeerDisconnect`'s purge for the peer and
`socketClose` is the WebSocket `onclose` reset (which clears
`receiveProgress` but not `fileChunksRef`). -/

/-- The transfer status values of `FileTransferProgress`. -/
inductive TStatus
  | pending
  | sending
  | receiving
  | complete
  | failed
  | declined
  deriving Repr, DecidableEq

/-- One `receiveProgress` entry (`fileSize` is `none` when the field is
absent, as in the spread of an undefined previous entry). -/
structure ProgressEntry where
  progress : Nat
  status : TStatus
  fileSize : Option Nat
  deriving Repr, DecidableEq

/-- One `fileChunksRef` accumulation record. -/
structure TransferBuf where
  chunks : List (List Nat)
  receivedBytes : Nat
  totalSize : Nat
  deriving Repr, DecidableEq

/-- Receiver state for a single transfer key. -/
structure RecvState where
  progress : Option ProgressEntry
  buf : Option TransferBuf
  deriving Repr, DecidableEq

/-- Messages and effects the receiver emits while handling events. -/
inductive OutMsg
  | chunkAck (index : Nat)
  | fileAccepted
  | fileDeclined
  | exposeFile (bytes : List Nat)
  deriving Repr, DecidableEq

def initRecv : RecvState := ⟨none, none⟩

/-- `Math.round(receivedBytes / totalSize * 100)` on naturals. -/
def roundPct (r t : Nat) : Nat := if 0 < t then (r * 200 + t) / (2 * t) else 0

/-- The `file-info` branch: create/overwrite the progress entry with
status `pending`; the chunk buffer is not touched. -/
def handleFileInfo (st : RecvState) (size : Nat) : RecvState :=
  ⟨some ⟨0, .pending, some size⟩, st.buf⟩

/-- The `file-chunk` branch of `handlePeerData`.  `enc` is the base64
payload, decoded with `atob`; `senderConnected` is whether the sender's
session is still `connected` (gating the informational `chunk-ack`). -/
def handleFileChunk (st : RecvState) (enc : List Nat) (index : Nat)
    (isLast : Bool) (senderConnected : Bool) : RecvState × List OutMsg :=
  match st.buf, st.progress with
  | some buf, some p =>
    if p.status = .receiving then
      let bytes := atobModel enc
      let buf' : TransferBuf :=
        ⟨buf.chunks ++ [bytes], buf.receivedBytes + bytes.length, buf.totalSize⟩
      let acks : List OutMsg :=
        if senderConnected then [.chunkAck index] else []
      let pUpd : ProgressEntry :=
        { p with progress := roundPct buf'.receivedBytes buf'.totalSize }
      if isLast then
        if buf'.receivedBytes = buf'.totalSize then
          (⟨some { pUpd with progress := 100, status := .complete }, none⟩,
            acks ++ [.exposeFile buf'.chunks.flatten])
        else
          (⟨some { pUpd with status := .failed }, none⟩, acks)
      else
        (⟨some pUpd, some buf'⟩, acks)
    else (st, [])
  | some buf, none =>
    -- progress entry missing but the buffer exists: process anyway, no ack
    let bytes := atobModel enc
    let buf' : TransferBuf :=
      ⟨buf.chunks ++ [bytes], buf.receivedBytes + bytes.length, buf.totalSize⟩
    if isLast = true ∧ buf'.receivedBytes = buf'.totalSize then
      (⟨some ⟨100, .complete, none⟩, none⟩, [.exposeFile buf'.chunks.flatten])
    else
      (⟨none, some buf'⟩, [])
  | none, _ => (st, [])

/-- `acceptFile`: allocate the buffer, set `receiving`, and send
`file-accepted`; if the sender is gone or the send throws, mark `failed`
and drop the buffer. -/
def acceptFile (st : RecvState) (senderConnected sendOk : Bool) :
    RecvState × List OutMsg :=
  match st.progress with
  | some p =>
    if p.status = .pending then
      if senderConnected ∧ sendOk then
        (⟨some { p with status := .receiving },
          some ⟨[], 0, p.fileSize.getD 0⟩⟩, [.fileAccepted])
      else
        (⟨some { p with status := .failed }, none⟩, [])
    else (st, [])
  | none => (st, [])

/-- `declineFile`: notify the sender (failures ignored) and delete the
progress entry. -/
def declineFile (st : RecvState) (senderConnected sendOk : Bool) :
    RecvState × List OutMsg :=
  match st.progress with
  | some p =>
    if p.status = .pending then
      (⟨none, st.buf⟩, if senderConnected ∧ sendOk then [.fileDeclined] else [])
    else (st, [])
  | none => (st, [])

/-- The receiver events relevant to one transfer key. -/
inductive REvent
  | fileInfo (size : Nat)
  | fileChunk (enc : List Nat) (index : Nat) (isLast : Bool)
      (senderConnected : Bool)
  | accept (senderConnected sendOk : Bool)
  | decline (senderConnected sendOk : Bool)
  | peerDisconnect
  | socketClose

def step (st : RecvState) : REvent → RecvState × List OutMsg
  | .fileInfo size => (handleFileInfo st size, [])
  | .fileChunk enc idx last conn => handleFileChunk st enc idx last conn
  | .accept conn ok => acceptFile st conn ok
  | .decline conn ok => declineFile st conn ok
  | .peerDisconnect => (⟨none, none⟩, [])
  | .socketClose => (⟨none, st.buf⟩, [])

def runFrom (st : RecvState) (sent : List OutMsg) :
    List REvent → RecvState × List OutMsg
  | [] => (st, sent)
  | e :: es =>
    let r := step st e
    runFrom r.1 (sent ++ r.2) es

/-- Run a sequence of receiver events from the initial state, returning
the final state and everything emitted along the way. -/
def run (evs : List REvent) : RecvState × List OutMsg := runFrom initRecv [] evs

/-- A `file-chunk` for a key with no accumulation buffer never changes
the state or emits anything. -/
theorem handleFileChunk_no_buf (st : RecvState) (enc : List Nat)
    (idx : Nat) (last conn : Bool) (hb : st.buf = none) :
    handleFileChunk st enc idx last conn = (st, []) := by
  unfold handleFileChunk
  rw [hb]

/-- One step preserves "a buffer exists only if `file-accepted` was
already emitted". -/
theorem step_buf_accepted (st : RecvState) (sent : List OutMsg) (e : REvent)
    (h : st.buf.isSome → OutMsg.fileAccepted ∈ sent) :
    (step st e).1.buf.isSome →
      OutMsg.fileAccepted ∈ sent ++ (step st e).2 := by
  cases e with
  | fileInfo size =>
      intro hs
      simp only [step, handleFileInfo] at hs
      simp [h hs]
  | fileChunk enc idx last conn =>
      intro hs
      rcases hb : st.buf with _ | buf
      · simp only [step] at hs
        rw [handleFileChunk_no_buf st enc idx last conn hb] at hs
        simp [hb] at hs
      · have := h (by simp [hb])
        simp [this]
  | accept conn ok =>
      intro hs
      simp only [step, acceptFile] at hs ⊢
      rcases hp : st.progress with _ | p
      · simp only [hp] at hs ⊢
        simpa using h (by simpa using hs)
      · simp only [hp] at hs ⊢
        split_ifs at hs ⊢ with h1 h2
        · simp
        · simp at hs
        · simpa using h (by simpa using hs)
  | decline conn ok =>
      intro hs
      simp only [step, declineFile] at hs ⊢
      rcases hp : st.progress with _ | p
      · simp only [hp] at hs ⊢
        simpa using h (by simpa using hs)
      · simp only [hp] at hs ⊢
        split_ifs at hs ⊢ with h1 h2
        · have := h (by simpa using hs)
          simp [this]
        · have := h (by simpa using hs)
          simp [this]
        · simpa using h (by simpa using hs)
  | peerDisconnect => intro hs; simp [step] at hs
  | socketClose =>
      intro hs
      simp only [step] at hs ⊢
      simpa using h (by simpa using hs)

theorem runFrom_buf_accepted (evs : List REvent) :
    ∀ (st : RecvState) (sent : List OutMsg),
      (st.buf.isSome → OutMsg.fileAccepted ∈ sent) →
      ((runFrom st sent evs).1.buf.isSome →
        OutMsg.fileAccepted ∈ (runFrom st sent evs).2) := by
  induction evs with
  | nil => intro st sent h; exact h
  | cons e es ih =>
      intro st sent h
      exact ih (step st e).1 (sent ++ (step st e).2) (step_buf_accepted st sent e h)

/-- Reachable-state invariant: whenever the chunk buffer exists, a
`file-accepted` has already been sent. -/
theorem run_buf_accepted (evs : List REvent) :
    (run evs).1.buf.isSome → OutMsg.fileAccepted ∈ (run evs).2 :=
  runFrom_buf_accepted evs initRecv [] (by simp [initRecv])

/-- The sender's `chunk-ack` branch of `handlePeerData` only logs the
acknowledged index; the send-progress map is untouched. -/
def handleChunkAck (sendProgress : List (String × TStatus))
    (fileId : String) (index : Nat) : List (String × TStatus) :=
  sendProgress

/-- Replace the index carried by a `chunk-ack`; other messages unchanged. -/
def setAckIndex (i : Nat) : OutMsg → OutMsg
  | .chunkAck _ => .chunkAck i
  | m => m

/-- C2.  Accept/decline gating: `file-info` creates a `pending` record and
allocates no buffer; a `file-chunk` for a still-`pending` record leaves the
state untouched and emits nothing; `acceptFile` on a pending record
allocates the buffer, sets `receiving` and sends `file-accepted`; and in
any reachable state, a `file-chunk` that does anything at all can only
occur after `file-accepted` has been sent. -/
theorem accept_decline_gating :
    (∀ (st : RecvState) (size : Nat),
      (handleFileInfo st size).progress = some ⟨0, .pending, some size⟩ ∧
      (handleFileInfo initRecv size).buf = none) ∧
    (∀ (st : RecvState) (enc : List Nat) (idx : Nat) (last conn : Bool)
        (p : ProgressEntry), st.progress = some p → p.status = .pending →
      handleFileChunk st enc idx last conn = (st, [])) ∧
    (∀ (st : RecvState) (p : ProgressEntry) (conn ok : Bool),
      st.progress = some p → p.status = .pending → conn = true → ok = true →
      acceptFile st conn ok =
        (⟨some { p with status := .receiving },
          some ⟨[], 0, p.fileSize.getD 0⟩⟩, [.fileAccepted])) ∧
    (∀ (evs : List REvent) (enc : List Nat) (idx : Nat) (last conn : Bool),
      step (run evs).1 (.fileChunk enc idx last conn) ≠ ((run evs).1, []) →
      OutMsg.fileAccepted ∈ (run evs).2) := by
  refine ⟨fun st size => ⟨rfl, rfl⟩, ?_, ?_, ?_⟩
  · intro st enc idx last conn p hp hpend
    rcases hb : st.buf with _ | buf
    · exact handleFileChunk_no_buf st enc idx last conn hb
    · unfold handleFileChunk
      rw [hb, hp]
      simp [hpend]
  · intro st p conn ok hp hpend hc hok
    unfold acceptFile
    rw [hp]
    simp [hpend, hc, hok]
  · intro evs enc idx last conn hne
    apply run_buf_accepted
    rcases hb : (run evs).1.buf with _ | buf
    · have hstep : step (run evs).1 (.fileChunk enc idx last conn)
          = ((run evs).1, []) := by
        simp only [step]
        exact handleFileChunk_no_buf _ enc idx last conn hb
      exact absurd hstep hne
    · simp [hb]

/-- A closed instance of `accept_decline_gating`: a pending chunk is a
no-op, and after `file-info; accept` a processed chunk is preceded by a
sent `file-accepted`. -/
theorem accept_decline_gating_witness :
    (handleFileChunk ⟨some ⟨0, .pending, some 5⟩, none⟩ (btoaModel [7]) 0
        true true = (⟨some ⟨0, .pending, some 5⟩, none⟩, [])) ∧
    OutMsg.fileAccepted ∈ (run [.fileInfo 1, .accept true true]).2 :=
  ⟨accept_decline_gating.2.1 _ _ 0 true true _ rfl rfl,
    accept_decline_gating.2.2.2 [.fileInfo 1, .accept true true]
      (btoaModel [7]) 0 true true (by decide)⟩

/-- C3.  Size mismatch detection: on the `isLast` chunk of a `receiving`
transfer, if the accumulated byte count differs from the declared total
the status becomes `failed`, the buffer is discarded, nothing is exposed
and the status is not `complete`; if it matches exactly, the status
becomes `complete` and the assembled bytes are exposed. -/
theorem size_mismatch_detection (st : RecvState) (p : ProgressEntry)
    (buf : TransferBuf) (enc : List Nat) (idx : Nat) (conn : Bool)
    (hp : st.progress = some p) (hs : p.status = .receiving)
    (hb : st.buf = some buf) :
    (buf.receivedBytes + (atobModel enc).length ≠ buf.totalSize →
      (handleFileChunk st enc idx true conn).1.progress =
        some { p with
          progress :=
            roundPct (buf.receivedBytes + (atobModel enc).length) buf.totalSize,
          status := .failed } ∧
      (handleFileChunk st enc idx true conn).1.buf = none ∧
      (∀ bytes, OutMsg.exposeFile bytes ∉ (handleFileChunk st enc idx true conn).2) ∧
      (∀ q, (handleFileChunk st enc idx true conn).1.progress = some q →
        q.status ≠ .complete)) ∧
    (buf.receivedBytes + (atobModel enc).length = buf.totalSize →
      (handleFileChunk st enc idx true conn).1.progress =
        some { p with progress := 100, status := .complete } ∧
      OutMsg.exposeFile ((buf.chunks ++ [atobModel enc]).flatten) ∈
        (handleFileChunk st enc idx true conn).2) := by
  unfold handleFileChunk
  rw [hb, hp]
  constructor
  · intro hne
    simp only [hs, if_true, reduceIte, hne, if_false]
    refine ⟨by simp, by simp, ?_, ?_⟩
    · intro bytes
      by_cases hc : conn = true <;> simp [hc]
    · intro q hq
      simp at hq
      simp [← hq]
  · intro heq
    simp only [hs, if_true, reduceIte, heq, if_false]
    refine ⟨by simp, ?_⟩
    by_cases hc : conn = true <;> simp [hc]

/-- A closed instance of `size_mismatch_detection`: one 1-byte chunk
flagged last against a declared total of 2 bytes fails and drops the
buffer. -/
theorem size_mismatch_detection_witness :
    (0 + (atobModel (btoaModel [9])).length ≠ 2) ∧
    (handleFileChunk ⟨some ⟨0, .receiving, some 2⟩, some ⟨[], 0, 2⟩⟩
        (btoaModel [9]) 0 true true).1.buf = none :=
  ⟨by decide,
    ((size_mismatch_detection ⟨some ⟨0, .receiving, some 2⟩, some ⟨[], 0, 2⟩⟩
      ⟨0, .receiving, some 2⟩ ⟨[], 0, 2⟩ (btoaModel [9]) 0 true rfl rfl rfl).1
      (by decide)).2.1⟩

/-- C10.  The receiver's chunk handler ignores the message index for all
state changes: two deliveries differing only in the index produce the same
state and the same outputs except for the index inside the informational
`chunk-ack`; every processed chunk is appended at the end of the buffer in
arrival order; and the sender's `chunk-ack` handler changes no state. -/
theorem receiver_ignores_index :
    (∀ (st : RecvState) (enc : List Nat) (last conn : Bool) (i j : Nat),
      (handleFileChunk st enc i last conn).1 =
        (handleFileChunk st enc j last conn).1) ∧
    (∀ (st : RecvState) (enc : List Nat) (last conn : Bool) (i j : Nat),
      (handleFileChunk st enc i last conn).2 =
        ((handleFileChunk st enc j last conn).2).map (setAckIndex i)) ∧
    (∀ (st : RecvState) (p : ProgressEntry) (buf : TransferBuf)
        (enc : List Nat) (i : Nat) (conn : Bool),
      st.progress = some p → p.status = .receiving → st.buf = some buf →
      (handleFileChunk st enc i false conn).1.buf =
        some ⟨buf.chunks ++ [atobModel enc],
          buf.receivedBytes + (atobModel enc).length, buf.totalSize⟩) ∧
    (∀ (sp : List (String × TStatus)) (f : String) (i : Nat),
      handleChunkAck sp f i = sp) := by
  refine ⟨?_, ?_, ?_, fun sp f i => rfl⟩
  · intro st enc last conn i j
    rcases hb : st.buf with _ | buf
    · rw [handleFileChunk_no_buf st enc i last conn hb,
        handleFileChunk_no_buf st enc j last conn hb]
    · rcases hp : st.progress with _ | p <;>
        simp only [handleFileChunk, hb, hp] <;>
        (try split_ifs) <;> rfl
  · intro st enc last conn i j
    rcases hb : st.buf with _ | buf
    · rw [handleFileChunk_no_buf st enc i last conn hb,
        handleFileChunk_no_buf st enc j last conn hb]
      rfl
    · rcases hp : st.progress with _ | p <;>
        simp only [handleFileChunk, hb, hp] <;>
        (try split_ifs) <;> simp [setAckIndex]
  · intro st p buf enc i conn hp hs hb
    simp [handleFileChunk, hb, hp, hs]

/-- A closed instance of `receiver_ignores_index`: a chunk appended with
index 5 lands at the end of the buffer exactly as with any other index. -/
theorem receiver_ignores_index_witness :
    (⟨some ⟨0, .receiving, some 2⟩, some ⟨[], 0, 2⟩⟩ : RecvState).progress
        = some ⟨0, .receiving, some 2⟩ ∧
    (handleFileChunk ⟨some ⟨0, .receiving, some 2⟩, some ⟨[], 0, 2⟩⟩
        (btoaModel [9]) 5 false true).1.buf =
      some ⟨[] ++ [atobModel (btoaModel [9])],
        0 + (atobModel (btoaModel [9])).length, 2⟩ :=
  ⟨rfl, receiver_ignores_index.2.2.1
    ⟨some ⟨0, .receiving, some 2⟩, some ⟨[], 0, 2⟩⟩
    ⟨0, .receiving, some 2⟩ ⟨[], 0, 2⟩ (btoaModel [9]) 5 true rfl rfl rfl⟩

/-! ## Whiteboard strokes (`Whiteboard.tsx`) -/

/-- A whiteboard stroke (`Stroke` interface). -/
structure Stroke where
  id : String
  tool : String
  color : String
  width : Nat
  points : List (Int × Int)
  text : Option String
  deriving Repr, DecidableEq

/-- The `stroke` branch of the whiteboard's `handlePeerData`: append the
received stroke unless one with the same id is already stored. -/
def applyStroke (strokes : List Stroke) (s : Stroke) : List Stroke :=
  if strokes.any fun t => t.id == s.id then strokes else strokes ++ [s]

/-- C9.  Stroke idempotence: applying a received stroke is idempotent in
the stroke id — a second delivery of the same id leaves the list
unchanged, so two broadcasts of one id store exactly one stroke. -/
theorem stroke_idempotent (l : List Stroke) (s : Stroke) :
    applyStroke (applyStroke l s) s = applyStroke l s ∧
    ((l.filter fun t => t.id == s.id) = [] →
      ((applyStroke (applyStroke l s) s).filter fun t => t.id == s.id)
        = [s]) := by
  constructor
  · by_cases h : l.any fun t => t.id == s.id
    · simp [applyStroke, h]
    · have hmem : (l ++ [s]).any (fun t => t.id == s.id) = true := by
        simp [List.any_append]
      simp [applyStroke, h, hmem]
  · intro hfree
    have hany : (l.any fun t => t.id == s.id) = false := by
      rw [List.any_eq_false]
      intro t ht
      have := List.filter_eq_nil_iff.mp hfree t ht
      simpa using this
    have happ : applyStroke l s = l ++ [s] := by simp [applyStroke, hany]
    have hmem : ((l ++ [s]).any fun t => t.id == s.id) = true := by
      simp [List.any_append]
    have h2 : applyStroke (applyStroke l s) s = l ++ [s] := by
      rw [happ]
      simp [applyStroke, hmem]
    rw [h2, List.filter_append, hfree]
    simp

/-- A closed instance of `stroke_idempotent`: the empty board stores one
copy of a twice-delivered stroke. -/
theorem stroke_idempotent_witness :
    (([] : List Stroke).filter fun t =>
        t.id == (Stroke.mk "s1" "pen" "black" 2 [] none).id) = [] ∧
    ((applyStroke (applyStroke [] (Stroke.mk "s1" "pen" "black" 2 [] none))
        (Stroke.mk "s1" "pen" "black" 2 [] none)).filter fun t =>
        t.id == (Stroke.mk "s1" "pen" "black" 2 [] none).id)
      = [Stroke.mk "s1" "pen" "black" 2 [] none] :=
  ⟨rfl, (stroke_idempotent [] (Stroke.mk "s1" "pen" "black" 2 [] none)).2 rfl⟩

/-! ## Signaling clients (C5)

`WordCounter.tsx`'s `sendMessageToServer` versus `Whiteboard.tsx`'s
`sendToServer` / `ws.onopen`. -/

/-- WebSocket ready states. -/
inductive WsReadyState
  | connecting
  | wsOpen
  | closing
  | closed
  deriving Repr, DecidableEq

/-- The Share page's signaling client: a socket (or none), the envelopes
actually transmitted, and the surfaced error banner.  It has no outgoing
queue. -/
structure SignalingClient where
  socket : Option WsReadyState
  transmitted : List String
  serverError : Option String
  deriving Repr, DecidableEq

/-- `sendMessageToServer` in `WordCounter.tsx`: transmit when the socket
is open (`sendOk` models the `try/catch` around `socket.send`); otherwise
log, set the error banner and drop the message. -/
def sendMessageToServer (st : SignalingClient) (msg : String)
    (sendOk : Bool) : SignalingClient :=
  match st.socket with
  | some .wsOpen =>
    if sendOk then { st with transmitted := st.transmitted ++ [msg] }
    else { st with serverError := some "Failed to communicate with server." }
  | _ =>
    { st with
      serverError := some "Not connected to server. Please wait or refresh." }

/-- The whiteboard's signaling client, which does keep a `sendQueue`. -/
structure WbSignaling where
  socket : Option WsReadyState
  transmitted : List String
  sendQueue : List String
  deriving Repr, DecidableEq

/-- `sendToServer` in `Whiteboard.tsx`: transmit when open, otherwise push
onto `sendQueue`. -/
def sendToServer (st : WbSignaling) (msg : String) : WbSignaling :=
  match st.socket with
  | some .wsOpen => { st with transmitted := st.transmitted ++ [msg] }
  | _ => { st with sendQueue := st.sendQueue ++ [msg] }

/-- The whiteboard's `ws.onopen`: flush the queue in FIFO order and clear
it. -/
def wsOnOpen (st : WbSignaling) : WbSignaling :=
  { socket := some .wsOpen,
    transmitted := st.transmitted ++ st.sendQueue,
    sendQueue := [] }

/-- C5 counterexample: the Share page's send drops an envelope passed
while the socket is still connecting — nothing is transmitted and the
returned client state holds the message nowhere, so nothing can ever be
flushed; only an error banner is set.  This falsifies "enqueued and
flushed in FIFO order once the channel opens" for the cited
`sendMessageToServer`. -/
theorem signaling_send_queueing_cex :
    sendMessageToServer ⟨some .connecting, [], none⟩ "m" true =
      ⟨some .connecting, [],
        some "Not connected to server. Please wait or refresh."⟩ ∧
    (sendMessageToServer ⟨some .connecting, [], none⟩ "m" true).transmitted
      = [] :=
  ⟨rfl, rfl⟩

/-- C5 amended: when the socket is open the Share page's send transmits
immediately; when it is not open the envelope is dropped (never queued —
the state has no queue) and an error is surfaced.  The whiteboard variant
does behave as the claim says: it enqueues while not open and flushes the
queue in FIFO order when the channel opens. -/
theorem signaling_send_queueing_amended :
    (∀ (st : SignalingClient) (msg : String), st.socket = some .wsOpen →
      (sendMessageToServer st msg true).transmitted
        = st.transmitted ++ [msg]) ∧
    (∀ (st : SignalingClient) (msg : String), st.socket ≠ some .wsOpen →
      (sendMessageToServer st msg true).transmitted = st.transmitted ∧
      (sendMessageToServer st msg true).serverError.isSome = true) ∧
    (∀ (st : WbSignaling) (msg : String), st.socket = some .wsOpen →
      (sendToServer st msg).transmitted = st.transmitted ++ [msg]) ∧
    (∀ (st : WbSignaling) (msg : String), st.socket ≠ some .wsOpen →
      (sendToServer st msg).sendQueue = st.sendQueue ++ [msg] ∧
      (sendToServer st msg).transmitted = st.transmitted) ∧
    (∀ st : WbSignaling,
      (wsOnOpen st).transmitted = st.transmitted ++ st.sendQueue ∧
      (wsOnOpen st).sendQueue = []) := by
  refine ⟨?_, ?_, ?_, ?_, fun st => ⟨rfl, rfl⟩⟩
  · intro st msg h
    simp [sendMessageToServer, h]
  · intro st msg h
    rcases hs : st.socket with _ | s
    · simp [sendMessageToServer, hs]
    · cases s
      · simp [sendMessageToServer, hs]
      · exact absurd hs h
      · simp [sendMessageToServer, hs]
      · simp [sendMessageToServer, hs]
  · intro st msg h
    simp [sendToServer, h]
  · intro st msg h
    rcases hs : st.socket with _ | s
    · simp [sendToServer, hs]
    · cases s
      · simp [sendToServer, hs]
      · exact absurd hs h
      · simp [sendToServer, hs]
      · simp [sendToServer, hs]

/-- A closed instance of `signaling_send_queueing_amended`: with an open
socket the envelope is transmitted; queued whiteboard messages are flushed
FIFO on open. -/
theorem signaling_send_queueing_amended_witness :
    (sendMessageToServer ⟨some .wsOpen, [], none⟩ "m" true).transmitted
      = [] ++ ["m"] ∧
    (wsOnOpen ⟨some .connecting, ["a"], ["b", "c"]⟩).transmitted
      = ["a"] ++ ["b", "c"] :=
  ⟨signaling_send_queueing_amended.1 ⟨some .wsOpen, [], none⟩ "m" rfl,
    (signaling_send_queueing_amended.2.2.2.2
      ⟨some .connecting, ["a"], ["b", "c"]⟩).1⟩

/-! ## Peer directory (C6, C7) -/

/-- Session status of a `PeerConnection`. -/
inductive PStatus
  | connecting
  | connected
  | failed
  | disconnected
  | pending_approval
  deriving Repr, DecidableEq

/-- The `peerConnections` directory reduced to the status per peer id. -/
abbrev PeerDir := List (String × PStatus)

/-- `handlePeerDisconnect`: delete the session from the directory. -/
def handlePeerDisconnect (dir : PeerDir) (peerId : String) : PeerDir :=
  dir.filter fun e => e.1 ≠ peerId

/-- `updatePeerStatus` (inside `handleSignalingMessage`): set the status
when the peer is present, keeping the entry in the directory. -/
def updatePeerStatus (dir : PeerDir) (peerId : String) (s : PStatus) :
    PeerDir :=
  dir.map fun e => if e.1 = peerId then (e.1, s) else e

/-- The `peer.on('error')` handler: mark `failed`, then
`handlePeerDisconnect` removes the session. -/
def onPeerError (dir : PeerDir) (peerId : String) : PeerDir :=
  handlePeerDisconnect (updatePeerStatus dir peerId .failed) peerId

/-- The `peer.on('close')` handler: remove the session when present. -/
def onPeerClose (dir : PeerDir) (peerId : String) : PeerDir :=
  if (dir.lookup peerId).isSome then handlePeerDisconnect dir peerId else dir

/-- The `connection-declined` branch of `handleSignalingMessage`: delete
the declined peer's session. -/
def onConnectionDeclined (dir : PeerDir) (source : String) : PeerDir :=
  handlePeerDisconnect dir source

/-- The `error` branch of `handleSignalingMessage`.  `mentionsNotFound`
models `message.message.includes("not found or offline")` and
`mentionsPeer` models `message.message.includes(currentConnectingPeer)`. -/
def onServerError (dir : PeerDir) (connectingPeer : Option String)
    (mentionsNotFound mentionsPeer : Bool) : PeerDir :=
  match connectingPeer with
  | some cp =>
    if mentionsNotFound ∧ mentionsPeer then handlePeerDisconnect dir cp
    else if mentionsPeer then updatePeerStatus dir cp .failed
    else dir
  | none => dir

/-- The failure paths of `handleAcceptRequest` (missing offer data,
signaling error, or peer object missing after initialization): mark the
session `failed` and keep it. -/
def onAcceptFailure (dir : PeerDir) (peerId : String) : PeerDir :=
  if (dir.lookup peerId).isSome then updatePeerStatus dir peerId .failed
  else dir

theorem lookup_handlePeerDisconnect (dir : PeerDir) (p : String) :
    (handlePeerDisconnect dir p).lookup p = none := by
  induction dir with
  | nil => rfl
  | cons e es ih =>
      obtain ⟨a, b⟩ := e
      by_cases h : a = p
      · have step : handlePeerDisconnect ((a, b) :: es) p
            = handlePeerDisconnect es p := by
          simp [handlePeerDisconnect, List.filter_cons, h]
        rw [step]
        exact ih
      · have hbeq : (p == a) = false := beq_false_of_ne (Ne.symm h)
        have step : handlePeerDisconnect ((a, b) :: es) p
            = (a, b) :: handlePeerDisconnect es p := by
          simp [handlePeerDisconnect, List.filter_cons, h]
        rw [step, List.lookup_cons, hbeq]
        simpa using ih

theorem lookup_updatePeerStatus (dir : PeerDir) (p : String)
    (s st : PStatus) (h : dir.lookup p = some st) :
    (updatePeerStatus dir p s).lookup p = some s := by
  induction dir with
  | nil => simp [List.lookup] at h
  | cons e es ih =>
      obtain ⟨a, b⟩ := e
      by_cases he : a = p
      · subst he
        have step : updatePeerStatus ((a, b) :: es) a s
            = (a, s) :: updatePeerStatus es a s := by
          simp [updatePeerStatus]
        rw [step, List.lookup_cons]
        simp
      · have hbeq : (p == a) = false := beq_false_of_ne (Ne.symm he)
        have step : updatePeerStatus ((a, b) :: es) p s
            = (a, b) :: updatePeerStatus es p s := by
          simp [updatePeerStatus, he]
        have h' : es.lookup p = some st := by
          rw [List.lookup_cons, hbeq] at h
          simpa using h
        rw [step, List.lookup_cons, hbeq]
        simpa using ih h'

/-- C6 counterexample: a signaling `error` naming the currently-connecting
peer (but not "not found or offline") drives the session to `failed` and
retains it in the directory, contradicting "removed rather than kept". -/
theorem no_terminal_sessions_cex :
    onServerError [("XYZ789", .connecting)] (some "XYZ789") false true
      = [("XYZ789", .failed)] ∧
    (onServerError [("XYZ789", .connecting)] (some "XYZ789") false true).lookup
      "XYZ789" = some .failed :=
  ⟨rfl, rfl⟩

/-- C6 amended: transport errors, transport closes, declines and
"peer not found" errors remove the session; but other signaling errors
naming the connecting peer, and `handleAcceptRequest` failures, set the
status to `failed` and retain the session in the directory. -/
theorem terminal_sessions_amended (dir : PeerDir) (p : String)
    (st : PStatus) (hmem : dir.lookup p = some st) :
    (onPeerError dir p).lookup p = none ∧
    (onPeerClose dir p).lookup p = none ∧
    (onConnectionDeclined dir p).lookup p = none ∧
    (onServerError dir (some p) true true).lookup p = none ∧
    (onServerError dir (some p) false true).lookup p = some .failed ∧
    (onAcceptFailure dir p).lookup p = some .failed := by
  refine ⟨lookup_handlePeerDisconnect _ p, ?_, lookup_handlePeerDisconnect _ p,
    ?_, ?_, ?_⟩
  · unfold onPeerClose
    rw [hmem]
    simpa using lookup_handlePeerDisconnect dir p
  · simpa [onServerError] using lookup_handlePeerDisconnect dir p
  · simpa [onServerError] using lookup_updatePeerStatus dir p .failed st hmem
  · unfold onAcceptFailure
    rw [hmem]
    simpa using lookup_updatePeerStatus dir p .failed st hmem

/-- A closed instance of `terminal_sessions_amended`. -/
theorem terminal_sessions_amended_witness :
    ([("ABC123", PStatus.connecting)] : PeerDir).lookup "ABC123"
      = some .connecting ∧
    (onPeerError [("ABC123", PStatus.connecting)] "ABC123").lookup "ABC123"
      = none ∧
    (onAcceptFailure [("ABC123", PStatus.connecting)] "ABC123").lookup
      "ABC123" = some .failed :=
  ⟨rfl,
    (terminal_sessions_amended [("ABC123", .connecting)] "ABC123"
      .connecting rfl).1,
    (terminal_sessions_amended [("ABC123", .connecting)] "ABC123"
      .connecting rfl).2.2.2.2.2⟩

/-! ## Mesh bootstrap on channel open (C7) -/

/-- Data-channel payloads sent by the `connect` handler. -/
inductive DataMsg
  | userInfo (name id : String)
  | peerList (peers : List String)
  deriving Repr, DecidableEq

/-- The ids of all `connected` sessions other than `peerId`
(`otherPeerIds` in the `connect` handler). -/
def otherConnectedIds (dir : PeerDir) (peerId : String) : List String :=
  (dir.filter fun e => e.1 ≠ peerId ∧ e.2 = PStatus.connected).map Prod.fst

/-- The `peer.on('connect')` handler: mark the session `connected`, send
`user-info`, and send a `peer-list` only when other connected peers
exist. -/
def onConnect (dir : PeerDir) (peerId selfName selfId : String) :
    PeerDir × List DataMsg :=
  (updatePeerStatus dir peerId .connected,
    [DataMsg.userInfo selfName selfId] ++
      (if 0 < (otherConnectedIds dir peerId).length
       then [DataMsg.peerList (otherConnectedIds dir peerId)] else []))

/-- The `peer-list` branch of `handlePeerData`: the listed ids the handler
initiates connections to (each via `initializePeerConnection` after a
random delay). -/
def handlePeerList (dir : PeerDir) (incomingRequests : List String)
    (selfId : String) (peers : List String) : List String :=
  peers.filter fun idc =>
    idc ≠ selfId ∧ dir.lookup idc = none ∧ idc ∉ incomingRequests

/-- C7 counterexample: (a) when no other peer is `connected`, the
`connect` handler sends only `user-info` and no `peer-list` at all; (b) a
peer receiving a peer-list does not initiate a connection to a listed id
that has a pending incoming request, even though it has no session for it
and it is not its own id.  Both contradict the claim as stated. -/
theorem mesh_bootstrap_cex :
    (onConnect [("B", PStatus.connecting)] "B" "alice" "A").2
      = [DataMsg.userInfo "alice" "A"] ∧
    handlePeerList [] ["C"] "ME" ["C"] = [] :=
  ⟨rfl, rfl⟩

/-- C7 amended: on channel open the session becomes `connected`, the first
payload is `user-info`, and a `peer-list` carrying exactly the ids of the
other currently `connected` sessions follows exactly when that set is
nonempty; a receiver initiates connections to exactly the listed ids that
are not its own, have no session, and have no pending incoming request. -/
theorem mesh_bootstrap_amended (dir : PeerDir) (p selfName selfId : String)
    (incoming : List String) (peers : List String) (st : PStatus)
    (hmem : dir.lookup p = some st) :
    (onConnect dir p selfName selfId).1.lookup p = some .connected ∧
    (onConnect dir p selfName selfId).2.head?
      = some (DataMsg.userInfo selfName selfId) ∧
    ((otherConnectedIds dir p).length = 0 →
      (onConnect dir p selfName selfId).2
        = [DataMsg.userInfo selfName selfId]) ∧
    (0 < (otherConnectedIds dir p).length →
      (onConnect dir p selfName selfId).2
        = [DataMsg.userInfo selfName selfId,
           DataMsg.peerList (otherConnectedIds dir p)]) ∧
    (∀ q, q ∈ otherConnectedIds dir p ↔
      ∃ s, (q, s) ∈ dir ∧ q ≠ p ∧ s = PStatus.connected) ∧
    (∀ idc, idc ∈ handlePeerList dir incoming selfId peers ↔
      (idc ∈ peers ∧ idc ≠ selfId ∧ dir.lookup idc = none ∧
        idc ∉ incoming)) := by
  refine ⟨lookup_updatePeerStatus dir p .connected st hmem, rfl, ?_, ?_, ?_, ?_⟩
  · intro h0
    simp [onConnect, h0]
  · intro h0
    simp [onConnect, h0]
  · intro q
    constructor
    · intro hq
      simp only [otherConnectedIds, List.mem_map] at hq
      obtain ⟨e, he, rfl⟩ := hq
      rw [List.mem_filter] at he
      obtain ⟨hein, hcond⟩ := he
      have hc := of_decide_eq_true hcond
      exact ⟨e.2, by simpa using hein, hc.1, hc.2⟩
    · rintro ⟨s, hin, hne, hs⟩
      refine List.mem_map.mpr ⟨(q, s), ?_, rfl⟩
      rw [List.mem_filter]
      exact ⟨hin, by simp [hne, hs]⟩
  · intro idc
    rw [handlePeerList, List.mem_filter]
    simp [and_assoc]

/-- A closed instance of `mesh_bootstrap_amended`. -/
theorem mesh_bootstrap_amended_witness :
    ([("B", PStatus.connecting), ("D", PStatus.connected)] : PeerDir).lookup
        "B" = some .connecting ∧
    (onConnect [("B", PStatus.connecting), ("D", PStatus.connected)]
        "B" "alice" "A").2
      = [DataMsg.userInfo "alice" "A", DataMsg.peerList ["D"]] :=
  ⟨rfl,
    (mesh_bootstrap_amended
      [("B", PStatus.connecting), ("D", PStatus.connected)]
      "B" "alice" "A" [] [] .connecting rfl).2.2.2.1 (by decide)⟩

/-! ## Sender flow control (C8) -/

/-- `const bufferThreshold = 768 * 1024` (the high-water mark). -/
def bufferThreshold : Nat := 768 * 1024

/-- The adaptive pacing state of the send loop. -/
structure FlowState where
  consecutiveSuccesses : Nat
  sendDelay : Nat
  deriving Repr, DecidableEq

def minDelay : Nat := 0

def maxDelay : Nat := 50

/-- The per-chunk delay adaptation in `sendFileChunks`: a high buffered
amount resets the success streak and raises the delay by 10 (capped at
50); a buffered amount under a quarter of the threshold extends the
streak and, after more than two consecutive low reads, lowers the delay
by 5 (floored at 0). -/
def adaptDelay (bufferAmount : Nat) (st : FlowState) : FlowState :=
  if bufferAmount > bufferThreshold then
    ⟨0, min (st.sendDelay + 10) maxDelay⟩
  else if bufferAmount < bufferThreshold / 4 then
    (if st.consecutiveSuccesses + 1 > 2 then
      ⟨st.consecutiveSuccesses + 1, max (st.sendDelay - 5) minDelay⟩
     else ⟨st.consecutiveSuccesses + 1, st.sendDelay⟩)
  else st

/-- Result of the buffer-drain wait loop. -/
inductive WaitOutcome
  | proceed (polls : Nat)
  | failedDisconnect (polls : Nat)
  deriving Repr, DecidableEq

/-- The drain loop `while (bufferedAmount > bufferThreshold / 2 &&
waitCount < 30)`: `buffered k` is the channel's buffered byte count at
poll `k` and `connected k` whether the peer session is still `connected`;
the fuel argument is `30 - waitCount`. -/
def drainWaitFrom (buffered : Nat → Nat) (connected : Nat → Bool) :
    Nat → Nat → WaitOutcome
  | k, 0 => .proceed k
  | k, fuel + 1 =>
    if buffered k > bufferThreshold / 2 then
      (if connected (k + 1) then
        drainWaitFrom buffered connected (k + 1) fuel
       else .failedDisconnect (k + 1))
    else .proceed k

def drainWait (buffered : Nat → Nat) (connected : Nat → Bool) : WaitOutcome :=
  drainWaitFrom buffered connected 0 30

/-- The pre-send flow-control step for one chunk: adapt the delay from
the current buffered amount, and if it exceeds the high-water mark run
the drain loop.  The final component records whether the transfer was
marked `failed` during the wait (which the code does only on
disconnect). -/
def flowControlStep (buffered : Nat → Nat) (connected : Nat → Bool)
    (st : FlowState) : FlowState × WaitOutcome × Bool :=
  let st' := adaptDelay (buffered 0) st
  if buffered 0 > bufferThreshold then
    match drainWait buffered connected with
    | .proceed k => (st', .proceed k, false)
    | .failedDisconnect k => (st', .failedDisconnect k, true)
  else (st', .proceed 0, false)

theorem drainWaitFrom_proceed (buffered : Nat → Nat)
    (connected : Nat → Bool) :
    ∀ (fuel k j : Nat),
      drainWaitFrom buffered connected k fuel = .proceed j →
      k ≤ j ∧ j ≤ k + fuel ∧
        (j = k + fuel ∨ buffered j ≤ bufferThreshold / 2) := by
  intro fuel
  induction fuel with
  | zero =>
      intro k j h
      simp only [drainWaitFrom] at h
      obtain rfl : k = j := by simpa using h
      exact ⟨le_refl _, by omega, Or.inl (by omega)⟩
  | succ f ih =>
      intro k j h
      simp only [drainWaitFrom] at h
      split_ifs at h with h1 h2
      · obtain ⟨hkj, hj, hor⟩ := ih (k + 1) j h
        refine ⟨by omega, by omega, ?_⟩
        rcases hor with hor | hor
        · exact Or.inl (by omega)
        · exact Or.inr hor
      · cases h
        exact ⟨le_refl _, by omega, Or.inr (by omega)⟩

theorem drainWaitFrom_connected (buffered : Nat → Nat)
    (connected : Nat → Bool) (hc : ∀ k, connected k = true) :
    ∀ (fuel k : Nat), ∃ j,
      drainWaitFrom buffered connected k fuel = .proceed j := by
  intro fuel
  induction fuel with
  | zero => intro k; exact ⟨k, rfl⟩
  | succ f ih =>
      intro k
      by_cases h1 : buffered k > bufferThreshold / 2
      · obtain ⟨j, hj⟩ := ih (k + 1)
        exact ⟨j, by simp [drainWaitFrom, h1, hc (k + 1), hj]⟩
      · exact ⟨k, by simp [drainWaitFrom, h1]⟩

/-- C8 counterexample: with the buffered amount pinned above the
high-water mark and the peer connected throughout, the drain loop stops
after its 30 bounded polls and the sender proceeds — the transfer is
never declared `failed` by the exhausted wait, contradicting "bounded by
a maximum wait before declaring the transfer failed". -/
theorem flow_control_cex :
    drainWait (fun _ => bufferThreshold) (fun _ => true)
      = .proceed 30 ∧
    (flowControlStep (fun _ => bufferThreshold + 1) (fun _ => true)
      ⟨0, 10⟩).2.2 = false :=
  ⟨rfl, rfl⟩

/-- C8 amended: before each chunk the sender inspects the buffered byte
count; above the high-water mark (768 KiB) it resets the success streak,
raises the inter-chunk delay by 10 ms (capped at 50 ms), and polls until
the count is at or below half the threshold or 30 polls have elapsed,
after which it proceeds regardless; the wait marks the transfer failed
only when the peer disconnects during it; and a count below a quarter of
the threshold on a streak of more than two consecutive sends lowers the
delay by 5 ms (floored at 0). -/
theorem flow_control_amended (st : FlowState) (buffered : Nat → Nat)
    (connected : Nat → Bool) (amt : Nat) :
    (amt > bufferThreshold →
      adaptDelay amt st = ⟨0, min (st.sendDelay + 10) maxDelay⟩) ∧
    (amt < bufferThreshold / 4 → 2 ≤ st.consecutiveSuccesses →
      adaptDelay amt st =
        ⟨st.consecutiveSuccesses + 1, max (st.sendDelay - 5) minDelay⟩) ∧
    (∀ k, drainWait buffered connected = .proceed k →
      k ≤ 30 ∧ (k = 30 ∨ buffered k ≤ bufferThreshold / 2)) ∧
    ((∀ k, connected k = true) →
      (∃ k, drainWait buffered connected = .proceed k) ∧
      (flowControlStep buffered connected st).2.2 = false) := by
  refine ⟨?_, ?_, ?_, ?_⟩
  · intro h
    simp [adaptDelay, h]
  · intro hlow hstreak
    have hnothigh : ¬(amt > bufferThreshold) := by
      have : bufferThreshold / 4 ≤ bufferThreshold := Nat.div_le_self _ _
      omega
    have hgt : st.consecutiveSuccesses + 1 > 2 := by omega
    simp [adaptDelay, hnothigh, hlow, hgt]
  · intro k h
    obtain ⟨_, h2, h3⟩ := drainWaitFrom_proceed buffered connected 30 0 k h
    exact ⟨by omega, by omega⟩
  · intro hc
    obtain ⟨j, hj⟩ := drainWaitFrom_connected buffered connected hc 30 0
    refine ⟨⟨j, hj⟩, ?_⟩
    unfold flowControlStep
    by_cases hb : buffered 0 > bufferThreshold
    · simp only [hb, if_true, reduceIte, drainWait, hj]
    · simp [hb]

/-- A closed instance of `flow_control_amended`: a high buffer read raises
the delay to 20 ms, and a connected wait never fails the transfer. -/
theorem flow_control_amended_witness :
    (bufferThreshold + 1 > bufferThreshold ∧
      adaptDelay (bufferThreshold + 1) ⟨1, 10⟩ = ⟨0, 20⟩) ∧
    (flowControlStep (fun _ => bufferThreshold + 1) (fun _ => true)
      ⟨1, 10⟩).2.2 = false :=
  ⟨⟨by omega,
    (flow_control_amended ⟨1, 10⟩ (fun _ => bufferThreshold + 1)
      (fun _ => true) (bufferThreshold + 1)).1 (by omega)⟩,
    ((flow_control_amended ⟨1, 10⟩ (fun _ => bufferThreshold + 1)
      (fun _ => true) (bufferThreshold + 1)).2.2.2 (fun _ => rfl)).2⟩

end P2P
